import Mathlib

/-!
A shallow embedding of `analyze_team_assessment.py`.

Modelling conventions:
* A row of the stickies dataframe is a `Sticky`: `id` (opaque unique key),
  `text` (`none` models a missing / non-string Text cell, NaN in pandas),
  `color` (the `BG Color` column, a plain string), and integer coordinates.
* The source computes Euclidean distances with `sqrt` and uses them only as
  sort keys.  Since `sqrt` is strictly monotone on nonnegative reals, sorting
  by the squared distance (`dist2`, an exact integer) produces exactly the
  same order, with exactly the same ties; the embedding therefore uses the
  squared distance as the key.
* `nx.Graph` is modelled by `Graph`: a node list (insertion order, no
  duplicates), an association list for the per-node `data` attribute, and an
  edge list where an undirected edge is stored once with its `kind`
  attribute; re-adding an existing edge overwrites its `kind`, as networkx
  does, and `add_edge` inserts missing endpoints as nodes, as networkx does.
* Python's `//` on the nonnegative ints appearing here is `Nat` division;
  the `ZeroDivisionError` it raises for a zero divisor is modelled by
  `Except.error`.
-/

structure Sticky where
  id : Nat
  text : Option String
  color : String
  x : Int
  y : Int
deriving DecidableEq, Repr

structure Edge where
  u : Nat
  v : Nat
  kind : String
deriving DecidableEq, Repr

structure Graph where
  nodes : List Nat
  dataMap : List (Nat × Sticky)
  edges : List Edge
deriving DecidableEq, Repr

def Graph.empty : Graph := ⟨[], [], []⟩

/-- Insert a node id if not already present (networkx node set, insertion order). -/
def insertNode (i : Nat) (l : List Nat) : List Nat :=
  if i ∈ l then l else l ++ [i]

/-- Does edge `e` connect `a` and `b` (in either orientation)? -/
def Edge.touches (e : Edge) (a b : Nat) : Bool :=
  (e.u == a && e.v == b) || (e.u == b && e.v == a)

def Graph.hasEdge (g : Graph) (a b : Nat) : Bool :=
  g.edges.any (fun e => e.touches a b)

/-- `graph.add_node(i, data=d)`: inserts the node and sets its data attribute
(overwriting any previous data, as networkx does). -/
def Graph.add_node (g : Graph) (i : Nat) (d : Sticky) : Graph :=
  { g with
    nodes := insertNode i g.nodes,
    dataMap :=
      if g.dataMap.any (fun p => p.1 == i) then
        g.dataMap.map (fun p => if p.1 == i then (i, d) else p)
      else
        g.dataMap ++ [(i, d)] }

/-- `graph.add_edge(a, b, kind=k)`: inserts missing endpoints as (data-less)
nodes; if the edge already exists its `kind` attribute is overwritten,
otherwise the edge is appended. -/
def Graph.add_edge (g : Graph) (a b : Nat) (k : String) : Graph :=
  if g.hasEdge a b then
    { g with
      nodes := insertNode b (insertNode a g.nodes),
      edges := g.edges.map (fun e => if e.touches a b then { e with kind := k } else e) }
  else
    { g with
      nodes := insertNode b (insertNode a g.nodes),
      edges := g.edges ++ [Edge.mk a b k] }

/-- Contribution of one stored edge to the degree of node `i`
(a self-loop counts twice, as in networkx). -/
def edgeInc (i : Nat) (e : Edge) : Nat :=
  (if e.u = i then 1 else 0) + (if e.v = i then 1 else 0)

/-- `graph.degree[i]`: number of incident edge ends. -/
def Graph.degree (g : Graph) (i : Nat) : Nat :=
  (g.edges.map (edgeInc i)).sum

def Graph.neighbors (g : Graph) (i : Nat) : List Nat :=
  g.edges.flatMap (fun e => if e.u = i then [e.v] else if e.v = i then [e.u] else [])

/-! ## Color normalization (`replace_rgb_codes_with_names`) -/

def color_map : List (String × String) :=
  [("#459C5B", "1-DarkGreen"),
   ("#AAED92", "2-LightGreen"),
   ("#FCF281", "3-Yellow"),
   ("#FFC061", "4-Orange"),
   ("#E95E5E", "5-DarkRed"),
   ("#86E6D9", "Team-Label"),
   ("#FFFFFF", "Topic-Label")]

/-- `df.replace({BG_COLOR: color_map})` on one cell: a cell equal to a mapped
code is replaced, any other cell is left unchanged. -/
def replace_color (c : String) : String :=
  match color_map.find? (fun p => p.1 == c) with
  | some p => p.2
  | none => c

def replace_rgb_codes_with_names (rows : List Sticky) : List Sticky :=
  rows.map (fun r => { r with color := replace_color r.color })

/-- The derived `Disagreement` column: first character of the color string. -/
def disagreement_of (s : Sticky) : Option Char := s.color.data.head?

/-! ## `build_connection_graph` -/

/-- Insert `x` in front of the first element `y` with `le x y` (so, after
every earlier element it ties with under a preorder `le`). -/
def ordered_insert {α : Type} (le : α → α → Bool) (x : α) : List α → List α
  | [] => [x]
  | y :: ys => if le x y then x :: y :: ys else y :: ordered_insert le x ys

/-- Python's `sorted`: a stable sort.  Insertion sort from the right is
stable, and for a total preorder `le` every stable sort returns the same
list, so this models `sorted` exactly.  (Structurally recursive, so it
computes by `rfl`/`decide`.) -/
def stable_sort {α : Type} (le : α → α → Bool) : List α → List α
  | [] => []
  | x :: xs => ordered_insert le x (stable_sort le xs)

def dist2 (a b : Sticky) : Int := (a.x - b.x) ^ 2 + (a.y - b.y) ^ 2

def label_texts : List String := ["Team-Label", "Topic-Label"]

def labels_only (stickies : List Sticky) : List Sticky :=
  stickies.filter (fun s => s.color ∈ label_texts)

def notes_only (stickies : List Sticky) : List Sticky :=
  stickies.filter (fun s => s.color ∉ label_texts)

def label_ids (stickies : List Sticky) : List Nat :=
  (labels_only stickies).map (fun item => item.id)

/-- `sorted(label_proximity, key=lambda x: x[0])` over
`itertools.product(labels_only, notes_only)` (stable sort on the distance). -/
def label_proximity (stickies : List Sticky) : List (Int × Sticky × Sticky) :=
  stable_sort (fun a b => decide (a.1 ≤ b.1))
    (((labels_only stickies).product (notes_only stickies)).map
      (fun p => (dist2 p.1 p.2, p.1, p.2)))

/-- Phase 1 loop: walk the sorted (label, note) pairs, attach each label the
first time it is seen, and break once every label is attached. -/
def phase1_go (total : Nat) : List (Int × Sticky × Sticky) → Graph → List Nat → Graph
  | [], g, _ => g
  | (_, label, note) :: rest, g, connected =>
    if label.id ∈ connected then
      phase1_go total rest g connected
    else if (connected ++ [label.id]).length = total then
      (g.add_node label.id label).add_edge label.id note.id "labeling"
    else
      phase1_go total rest
        ((g.add_node label.id label).add_edge label.id note.id "labeling")
        (connected ++ [label.id])

def graph_after_phase1 (stickies : List Sticky) : Graph :=
  phase1_go (labels_only stickies).length (label_proximity stickies) Graph.empty []

/-- The `add_node` loop over `notes_only` that precedes the merging loop. -/
def graph_with_notes (stickies : List Sticky) : Graph :=
  (notes_only stickies).foldl (fun g s => g.add_node s.id s) (graph_after_phase1 stickies)

/-- `itertools.combinations(l, r=2)`, in source order. -/
def pairs_of {α : Type} : List α → List (α × α)
  | [] => []
  | x :: rest => (rest.map (fun y => (x, y))) ++ pairs_of rest

/-- `sorted(raw_ticket_proximity)`: the candidate note pairs sorted
lexicographically on (distance, left id, right id). -/
def ticket_proximity (stickies : List Sticky) : List (Int × Nat × Nat) :=
  stable_sort
    (fun a b =>
      decide (a.1 < b.1) ||
        (decide (a.1 = b.1) &&
          (decide (a.2.1 < b.2.1) ||
            (decide (a.2.1 = b.2.1) && decide (a.2.2 ≤ b.2.2)))))
    ((pairs_of (notes_only stickies)).map
      (fun p => (dist2 p.1 p.2, p.1.id, p.2.id)))

/-- `min(value for key, value in graph.degree if key not in label_ids)`.
Returns `none` for an empty generator (where Python would raise `ValueError`;
whenever the phase 2 loop body runs there is at least one note node, so the
generator is provably never empty there). -/
def min_note_degree (g : Graph) (labelIds : List Nat) : Option Nat :=
  ((g.nodes.filter (fun k => k ∉ labelIds)).map (fun k => g.degree k)).min?

/-- Phase 2 loop: add proximity edges in sorted order, stopping as soon as the
minimum degree over non-label nodes is exactly 2. -/
def phase2_go (labelIds : List Nat) : List (Int × Nat × Nat) → Graph → Graph
  | [], g => g
  | (_, a, b) :: rest, g =>
    if min_note_degree (g.add_edge a b "proximity") labelIds = some 2 then
      g.add_edge a b "proximity"
    else phase2_go labelIds rest (g.add_edge a b "proximity")

def build_connection_graph (stickies : List Sticky) : Graph :=
  phase2_go (label_ids stickies) (ticket_proximity stickies) (graph_with_notes stickies)

/-! ## Connected components (`nx.connected_components`) -/

/-- Append each candidate not already present (set union, insertion order). -/
def insert_all (s : List Nat) (cands : List Nat) : List Nat :=
  cands.foldl (fun acc x => if x ∈ acc then acc else acc ++ [x]) s

/-- One breadth step: add every neighbor of the current set. -/
def close_step (g : Graph) (s : List Nat) : List Nat :=
  insert_all s (s.flatMap (fun v => g.neighbors v))

/-- The connected component of `v`: iterating the breadth step `|V|` times
reaches every node at path distance ≤ `|V|`, i.e. the whole component. -/
def component_of (g : Graph) (v : Nat) : List Nat :=
  (close_step g)^[g.nodes.length] [v]

def connected_components (g : Graph) : List (List Nat) :=
  (g.nodes.foldl
    (fun acc v =>
      if v ∈ acc.2 then acc
      else (acc.1 ++ [component_of g v], acc.2 ++ component_of g v))
    (([], []) : List (List Nat) × List Nat)).1

/-- `graph.nodes[node_id]['data']`. -/
def lookup_data (g : Graph) (i : Nat) : Option Sticky :=
  (g.dataMap.find? (fun p => p.1 == i)).map (fun p => p.2)

/-- The `sticky_group` list materialized from a component's node ids. -/
def group_data (g : Graph) (group : List Nat) : List Sticky :=
  group.filterMap (fun i => lookup_data g i)

/-! ## `collect_text` and the per-group analysis from `main` -/

/-- Python's `s.rstrip('.')`. -/
def rstrip_dots (s : String) : String :=
  String.mk ((s.data.reverse.dropWhile (fun c => c = '.')).reverse)

/-- `". ".join(note[TEXT].rstrip('.') for note in group if isinstance(note[TEXT], str))`:
rows whose Text cell is not a string (NaN) are skipped; every string cell,
the empty string included, is kept. -/
def collect_text (sticky_group : List Sticky) : String :=
  String.intercalate ". "
    ((sticky_group.filter (fun n => n.text.isSome)).map (fun n => rstrip_dots (n.text.getD "")))

structure Analysis where
  team_name : Option String
  topic : Option String
  population : Nat
  score : Nat
  red_text : String
  yellow_text : String
  green_text : String
deriving DecidableEq, Repr

def positive_colors : List String := ["1-DarkGreen", "2-LightGreen"]

/-- [sic] the source writes `'5-Darkred'` (lowercase r) here, which is not the
name the color map produces. -/
def negative_colors : List String := ["4-Orange", "5-Darkred"]

/-- Substring test used by `'Label' not in sticky[BG_COLOR]`. -/
def contains_sub (pat : List Char) : List Char → Bool
  | [] => pat.isEmpty
  | c :: rest => pat.isPrefixOf (c :: rest) || contains_sub pat rest

def has_label_sub (s : String) : Bool := contains_sub "Label".data s.data

/-- The label filter from `main`: keep stickies whose color does not contain
the substring `"Label"`. -/
def filter_labels (sticky_group : List Sticky) : List Sticky :=
  sticky_group.filter (fun s => !(has_label_sub s.color))

def population_of (sticky_group : List Sticky) : Nat :=
  (filter_labels sticky_group).length

/-- The numerator of the score expression. -/
def weighted_sum (backgrounds : List String) : Nat :=
  (backgrounds.count "5-DarkRed") * 0 + (backgrounds.count "4-Orange") * 25 +
    (backgrounds.count "3-Yellow") * 50 + (backgrounds.count "2-LightGreen") * 75 +
    (backgrounds.count "1-DarkGreen") * 100

/-- The group score, on the already label-filtered group (meaningful only when
the population is positive; the raising branch lives in `analyze_group`). -/
def score_of (filtered : List Sticky) : Nat :=
  weighted_sum (filtered.map (fun n => n.color)) / filtered.length

def red_text_of (filtered : List Sticky) : String :=
  collect_text (filtered.filter (fun x => x.color ∈ negative_colors))

def yellow_text_of (filtered : List Sticky) : String :=
  collect_text (filtered.filter (fun x => x.color == "3-Yellow"))

def green_text_of (filtered : List Sticky) : String :=
  collect_text (filtered.filter (fun x => x.color ∈ positive_colors))

/-- The body of the per-group loop in `main`.  A group whose label-filtered
population is 0 hits `// population` with a zero divisor: `ZeroDivisionError`. -/
def analyze_group (sticky_group : List Sticky) : Except String Analysis :=
  let team_texts := (sticky_group.filter (fun n => n.color == "Team-Label")).map (fun n => n.text)
  let team_name : Option String :=
    match team_texts with
    | [] => some "no team name attached"
    | t :: _ => t
  let topic_texts := (sticky_group.filter (fun n => n.color == "Topic-Label")).map (fun n => n.text)
  let topic : Option String :=
    match topic_texts with
    | [] => some "no topic attached."
    | t :: _ => t
  let filtered := filter_labels sticky_group
  if filtered.length = 0 then
    Except.error "ZeroDivisionError"
  else
    Except.ok
      { team_name := team_name
        topic := topic
        population := filtered.length
        score := score_of filtered
        red_text := red_text_of filtered
        yellow_text := yellow_text_of filtered
        green_text := green_text_of filtered }

/-- `main` after ingestion: normalize colors, build the graph, analyze each
connected component.  The first `ZeroDivisionError` aborts the run, as an
uncaught Python exception would. -/
def main_analyses (rows : List Sticky) : Except String (List Analysis) :=
  let st := replace_rgb_codes_with_names rows
  let g := build_connection_graph st
  (connected_components g).mapM (fun group => analyze_group (group_data g group))

/-- Did the per-group analysis produce a record (rather than raise)? -/
def analysis_ok (e : Except String Analysis) : Bool :=
  match e with
  | Except.ok _ => true
  | Except.error _ => false

/-- A bucket's output string as the specification words it: take only the
non-empty texts of the bucket members, strip trailing dots, join with
`". "`.  Written from the spec's words, for comparison with `collect_text`,
which is written from the source. -/
def claimed_bucket_text (sticky_group : List Sticky) : String :=
  String.intercalate ". "
    (((sticky_group.filterMap (fun n => n.text)).filter (fun t => !(t == ""))).map rstrip_dots)

/-- Number of edges of kind `labeling` incident to node `i`. -/
def labeling_degree (g : Graph) (i : Nat) : Nat :=
  (g.edges.filter (fun e => (e.u == i || e.v == i) && (e.kind == "labeling"))).length

/-- Nodes `a` and `b` are joined by a stored edge (either orientation). -/
def Graph.linked (g : Graph) (a b : Nat) : Prop :=
  ∃ e ∈ g.edges, (e.u = a ∧ e.v = b) ∨ (e.u = b ∧ e.v = a)

/-- The score weight a single background color contributes (0 for any color
outside the five ranked ones, which is how the count-based numerator treats
such colors). -/
def color_weight (c : String) : Nat :=
  if c = "5-DarkRed" then 0
  else if c = "4-Orange" then 25
  else if c = "3-Yellow" then 50
  else if c = "2-LightGreen" then 75
  else if c = "1-DarkGreen" then 100
  else 0

/-! ## Theorems -/

/-- C3: the source's `negative_colors` list writes `'5-Darkred'` (lowercase r),
which differs from the mapped name `'5-DarkRed'`, so a DarkRed note's text is
dropped from the negative bucket: on a group holding one DarkRed note with
text "bad", `red_text` comes out empty although the claim (and the score
computation, which counts `'5-DarkRed'`) treats DarkRed as negative. -/
theorem c3_darkred_text_dropped :
    red_text_of [⟨0, some "bad", "5-DarkRed", 0, 0⟩] = "" ∧
    "5-DarkRed" ∉ negative_colors ∧
    red_text_of [⟨0, some "bad", "4-Orange", 0, 0⟩] = "bad" := by
  refine ⟨rfl, by decide, rfl⟩

/-- C2 (counterexample): on a group whose only member is a label
(population 0 after filtering), the score computation is not guarded: it
raises `ZeroDivisionError` instead of producing a record with a "no score"
marker (no such marker exists in the code). -/
theorem c2_population_zero_raises :
    analyze_group [⟨5, some "Alpha", "Team-Label", 0, 0⟩] =
      Except.error "ZeroDivisionError" ∧
    analysis_ok (analyze_group [⟨5, some "Alpha", "Team-Label", 0, 0⟩]) = false :=
  ⟨rfl, rfl⟩

/-- C4 (counterexample): on an input consisting of a single label and no
notes, the label is *not* kept as an isolated node: labels are only added to
the graph at attachment time, so the graph is empty and there are no groups
at all. -/
theorem c4_label_vanishes_without_notes :
    (build_connection_graph [⟨1, some "T", "Team-Label", 0, 0⟩]).nodes = [] ∧
    connected_components (build_connection_graph [⟨1, some "T", "Team-Label", 0, 0⟩]) = [] :=
  ⟨rfl, rfl⟩

/-- C6 (counterexample): an unmapped color code (`"#123456"`) passes through
`replace_rgb_codes_with_names` unchanged, no error is surfaced, and the item
is clustered as a plain note (its id becomes a graph node). -/
theorem c6_unmapped_code_is_clustered :
    replace_rgb_codes_with_names [⟨7, some "hm", "#123456", 0, 0⟩] =
      [⟨7, some "hm", "#123456", 0, 0⟩] ∧
    notes_only (replace_rgb_codes_with_names [⟨7, some "hm", "#123456", 0, 0⟩]) =
      [⟨7, some "hm", "#123456", 0, 0⟩] ∧
    7 ∈ (build_connection_graph (replace_rgb_codes_with_names
          [⟨7, some "hm", "#123456", 0, 0⟩])).nodes := by
  refine ⟨rfl, rfl, by decide⟩

/-- C7 (counterexample): a note with *empty* string text is not skipped by
`collect_text` — Python's `isinstance(text, str)` holds for `""` — so it
contributes an empty segment between two separators, while the claim's
"only the non-empty texts" wording predicts it contributes nothing. -/
theorem c7_empty_text_contributes :
    collect_text
        [⟨0, some "a", "3-Yellow", 0, 0⟩, ⟨1, some "", "3-Yellow", 0, 1⟩,
         ⟨2, some "b", "3-Yellow", 0, 2⟩] = "a. . b" ∧
    claimed_bucket_text
        [⟨0, some "a", "3-Yellow", 0, 0⟩, ⟨1, some "", "3-Yellow", 0, 1⟩,
         ⟨2, some "b", "3-Yellow", 0, 2⟩] = "a. b" ∧
    ("a. . b" : String) ≠ "a. b" := by
  refine ⟨rfl, rfl, by decide⟩

/-! ## Helper lemmas: sorting and membership -/

lemma mem_ordered_insert {α : Type} (le : α → α → Bool) (x a : α) (l : List α) :
    a ∈ ordered_insert le x l ↔ a = x ∨ a ∈ l := by
  induction l with
  | nil => simp [ordered_insert]
  | cons y ys ih =>
    simp only [ordered_insert]
    split
    · simp [List.mem_cons]
    · simp only [List.mem_cons, ih]
      tauto

lemma mem_stable_sort {α : Type} (le : α → α → Bool) (a : α) (l : List α) :
    a ∈ stable_sort le l ↔ a ∈ l := by
  induction l with
  | nil => simp [stable_sort]
  | cons x xs ih =>
    simp [stable_sort, mem_ordered_insert, ih, List.mem_cons]

/-- C9: with 0 or 1 notes there are no candidate pairs at all, so the Phase 2
loop (a structurally recursive function here, hence terminating on every
input by construction) stops by exhausting the empty candidate list: the
final graph is exactly the pre-loop graph, with no proximity edge and no
hang.  The degree-2 threshold is never consulted. -/
theorem c9_short_input_loop_exhausts (stickies : List Sticky)
    (h : (notes_only stickies).length ≤ 1) :
    ticket_proximity stickies = [] ∧
    build_connection_graph stickies = graph_with_notes stickies := by
  have hp : pairs_of (notes_only stickies) = [] := by
    cases hl : notes_only stickies with
    | nil => rfl
    | cons x xs =>
      cases hxs : xs with
      | nil => rfl
      | cons y ys =>
        rw [hl, hxs] at h
        simp at h
  have ht : ticket_proximity stickies = [] := by
    unfold ticket_proximity
    rw [hp]
    rfl
  refine ⟨ht, ?_⟩
  unfold build_connection_graph
  rw [ht]
  rfl

theorem c9_witness :
    ticket_proximity [⟨1, some "a", "3-Yellow", 0, 0⟩] = [] ∧
    build_connection_graph [⟨1, some "a", "3-Yellow", 0, 0⟩] =
      graph_with_notes [⟨1, some "a", "3-Yellow", 0, 0⟩] :=
  c9_short_input_loop_exhausts [⟨1, some "a", "3-Yellow", 0, 0⟩] (by decide)

/-- C4 (amended): when the input has no plain notes, the labels are *not*
kept as isolated nodes: a label node is only ever created at attachment
time, so with no candidate notes the produced graph is entirely empty and
there are no groups at all. -/
theorem c4_amended_no_notes_empty_graph (stickies : List Sticky)
    (h : notes_only stickies = []) :
    build_connection_graph stickies = Graph.empty ∧
    connected_components (build_connection_graph stickies) = [] := by
  have h1 : label_proximity stickies = [] := by
    have hpn : (labels_only stickies).product ([] : List Sticky) = [] :=
      List.product_nil (labels_only stickies)
    unfold label_proximity
    rw [h, hpn]
    rfl
  have h2 : graph_after_phase1 stickies = Graph.empty := by
    unfold graph_after_phase1
    rw [h1]
    rfl
  have h3 : graph_with_notes stickies = Graph.empty := by
    unfold graph_with_notes
    rw [h, h2]
    rfl
  have h4 : ticket_proximity stickies = [] := by
    unfold ticket_proximity
    rw [h]
    rfl
  have h5 : build_connection_graph stickies = Graph.empty := by
    unfold build_connection_graph
    rw [h4, h3]
    rfl
  exact ⟨h5, by rw [h5]; rfl⟩

theorem c4_amended_witness :
    build_connection_graph
        [⟨1, some "T", "Team-Label", 0, 0⟩, ⟨2, some "P", "Topic-Label", 3, 3⟩] =
      Graph.empty ∧
    connected_components (build_connection_graph
        [⟨1, some "T", "Team-Label", 0, 0⟩, ⟨2, some "P", "Topic-Label", 3, 3⟩]) = [] :=
  c4_amended_no_notes_empty_graph _ (by decide)

/-- C6 (amended): an unmapped color code is not a configuration error: it is
passed through `replace_rgb_codes_with_names` unchanged and the item is then
treated by clustering as a plain note (it lands in `notes_only`), with no
error surfaced at any point. -/
theorem c6_amended_unmapped_passthrough (rows : List Sticky) (r : Sticky)
    (hr : r ∈ rows)
    (hcode : r.color ∉ color_map.map (fun p => p.1))
    (hlab : r.color ∉ label_texts) :
    replace_color r.color = r.color ∧
    r ∈ notes_only (replace_rgb_codes_with_names rows) := by
  have h1 : replace_color r.color = r.color := by
    unfold replace_color
    cases hf : color_map.find? (fun p => p.1 == r.color) with
    | none => rfl
    | some p =>
      exfalso
      have hp0 := @List.find?_some (String × String) (fun q => q.1 == r.color) p color_map hf
      have hp : p.1 = r.color := eq_of_beq hp0
      have hmem : p ∈ color_map := List.mem_of_find?_eq_some hf
      exact hcode (hp ▸ List.mem_map_of_mem (fun q => q.1) hmem)
  refine ⟨h1, ?_⟩
  unfold notes_only replace_rgb_codes_with_names
  rw [List.mem_filter]
  constructor
  · refine List.mem_map.mpr ⟨r, hr, ?_⟩
    rw [h1]
  · exact decide_eq_true hlab

theorem c6_amended_witness :
    replace_color ("#123456" : String) = "#123456" ∧
    (⟨7, some "hm", "#123456", 0, 0⟩ : Sticky) ∈
      notes_only (replace_rgb_codes_with_names [⟨7, some "hm", "#123456", 0, 0⟩]) :=
  c6_amended_unmapped_passthrough [⟨7, some "hm", "#123456", 0, 0⟩]
    ⟨7, some "hm", "#123456", 0, 0⟩ (by decide) (by decide) (by decide)

/-! ## Helper lemmas: text assembly -/

lemma filterMap_text_eq (l : List Sticky) :
    l.filterMap (fun n => n.text) =
      (l.filter (fun n => n.text.isSome)).map (fun n => n.text.getD "") := by
  induction l with
  | nil => rfl
  | cons s t ih =>
    cases hs : s.text with
    | none => simp [List.filterMap_cons, List.filter_cons, hs, ih]
    | some v => simp [List.filterMap_cons, List.filter_cons, hs, ih]

/-- C7 (amended): the bucket string takes the texts of exactly the notes
whose Text cell is a string — the empty string included — strips trailing
dots, and joins with `". "` in the group's natural order; only notes with an
absent (non-string) Text cell contribute nothing.  When no member's text is
the empty string this coincides with the claim's "non-empty texts" wording. -/
theorem c7_amended_text_assembly (sticky_group : List Sticky) :
    collect_text sticky_group =
      String.intercalate ". "
        ((sticky_group.filterMap (fun n => n.text)).map rstrip_dots) ∧
    ((∀ s ∈ sticky_group, s.text ≠ some "") →
      collect_text sticky_group = claimed_bucket_text sticky_group) := by
  have h1 : collect_text sticky_group =
      String.intercalate ". "
        ((sticky_group.filterMap (fun n => n.text)).map rstrip_dots) := by
    unfold collect_text
    rw [filterMap_text_eq, List.map_map]
    rfl
  refine ⟨h1, fun hne => ?_⟩
  have h2 : (sticky_group.filterMap (fun n => n.text)).filter (fun t => !(t == "")) =
      sticky_group.filterMap (fun n => n.text) := by
    apply List.filter_eq_self.mpr
    intro t ht
    obtain ⟨s, hs, hst⟩ := List.mem_filterMap.mp ht
    have hne' : t ≠ "" := by
      intro h0
      exact hne s hs (by rw [hst, h0])
    simp [hne']
  unfold claimed_bucket_text
  rw [h2, ← h1]

theorem c7_amended_witness :
    collect_text [⟨0, some "a..", "3-Yellow", 0, 0⟩, ⟨1, none, "3-Yellow", 0, 1⟩,
        ⟨2, some "b", "3-Yellow", 0, 2⟩] =
      claimed_bucket_text [⟨0, some "a..", "3-Yellow", 0, 0⟩, ⟨1, none, "3-Yellow", 0, 1⟩,
        ⟨2, some "b", "3-Yellow", 0, 2⟩] :=
  (c7_amended_text_assembly _).2 (by decide)

/-! ## Helper lemmas: the score -/

lemma weight_split (c : String) :
    (if (c == "5-DarkRed") = true then (1 : Nat) else 0) * 0 +
      (if (c == "4-Orange") = true then (1 : Nat) else 0) * 25 +
      (if (c == "3-Yellow") = true then (1 : Nat) else 0) * 50 +
      (if (c == "2-LightGreen") = true then (1 : Nat) else 0) * 75 +
      (if (c == "1-DarkGreen") = true then (1 : Nat) else 0) * 100 = color_weight c := by
  by_cases h1 : c = "5-DarkRed"
  · subst h1; decide
  by_cases h2 : c = "4-Orange"
  · subst h2; decide
  by_cases h3 : c = "3-Yellow"
  · subst h3; decide
  by_cases h4 : c = "2-LightGreen"
  · subst h4; decide
  by_cases h5 : c = "1-DarkGreen"
  · subst h5; decide
  simp [color_weight, beq_iff_eq, h1, h2, h3, h4, h5]

lemma weighted_sum_eq (l : List String) :
    weighted_sum l = (l.map color_weight).sum := by
  induction l with
  | nil => rfl
  | cons c t ih =>
    have hsplit := weight_split c
    unfold weighted_sum at ih ⊢
    simp only [List.count_cons, List.map_cons, List.sum_cons]
    rw [← hsplit, ← ih]
    ring

lemma weighted_sum_le (l : List String) : weighted_sum l ≤ 100 * l.length := by
  rw [weighted_sum_eq]
  have hb : ∀ x ∈ l.map color_weight, x ≤ 100 := by
    intro x hx
    obtain ⟨c, _, rfl⟩ := List.mem_map.mp hx
    unfold color_weight
    split_ifs <;> omega
  have := List.sum_le_card_nsmul (l.map color_weight) 100 hb
  simpa [List.length_map, Nat.smul_one_eq_cast, mul_comm] using this

lemma weighted_sum_const (c : String) (n : Nat) :
    weighted_sum (List.replicate n c) = n * color_weight c := by
  rw [weighted_sum_eq, List.map_replicate, List.sum_replicate, smul_eq_mul]

/-- C8: for a group of positive population the score is a natural number (so
0 ≤ score holds by typing) at most 100; it is exactly 100 when every
remaining note is DarkGreen and exactly 0 when every remaining note is
DarkRed. -/
theorem c8_score_bounds (sticky_group : List Sticky)
    (hpop : 0 < population_of sticky_group) :
    score_of (filter_labels sticky_group) ≤ 100 ∧
    ((∀ s ∈ filter_labels sticky_group, s.color = "1-DarkGreen") →
      score_of (filter_labels sticky_group) = 100) ∧
    ((∀ s ∈ filter_labels sticky_group, s.color = "5-DarkRed") →
      score_of (filter_labels sticky_group) = 0) := by
  have hlen : 0 < (filter_labels sticky_group).length := hpop
  unfold score_of
  refine ⟨?_, ?_, ?_⟩
  · have h := weighted_sum_le ((filter_labels sticky_group).map (fun n => n.color))
    rw [List.length_map] at h
    calc weighted_sum ((filter_labels sticky_group).map (fun n => n.color)) /
          (filter_labels sticky_group).length
        ≤ 100 * (filter_labels sticky_group).length / (filter_labels sticky_group).length :=
          Nat.div_le_div_right h
      _ = 100 := Nat.mul_div_cancel 100 hlen
  · intro hall
    have hmap : (filter_labels sticky_group).map (fun n => n.color) =
        List.replicate (filter_labels sticky_group).length "1-DarkGreen" := by
      rw [List.map_congr_left hall, List.map_const']
    rw [hmap, weighted_sum_const]
    have : color_weight "1-DarkGreen" = 100 := by decide
    rw [this, mul_comm, Nat.mul_div_cancel 100 hlen]
  · intro hall
    have hmap : (filter_labels sticky_group).map (fun n => n.color) =
        List.replicate (filter_labels sticky_group).length "5-DarkRed" := by
      rw [List.map_congr_left hall, List.map_const']
    rw [hmap, weighted_sum_const]
    have : color_weight "5-DarkRed" = 0 := by decide
    rw [this, Nat.mul_zero, Nat.zero_div]

theorem c8_witness :
    score_of (filter_labels [⟨1, some "g", "1-DarkGreen", 0, 0⟩]) = 100 ∧
    score_of (filter_labels [⟨2, some "r", "5-DarkRed", 0, 0⟩]) = 0 :=
  ⟨(c8_score_bounds [⟨1, some "g", "1-DarkGreen", 0, 0⟩] (by decide)).2.1 (by decide),
   (c8_score_bounds [⟨2, some "r", "5-DarkRed", 0, 0⟩] (by decide)).2.2 (by decide)⟩

/-! ## Helper lemmas: graph operations -/

lemma insertNode_mem {i j : Nat} {l : List Nat} (h : i ∈ l) : i ∈ insertNode j l := by
  unfold insertNode
  split
  · exact h
  · exact List.mem_append_left _ h

lemma insertNode_self (j : Nat) (l : List Nat) : j ∈ insertNode j l := by
  unfold insertNode
  split
  · assumption
  · simp

lemma mem_insertNode {i j : Nat} {l : List Nat} (h : i ∈ insertNode j l) : i = j ∨ i ∈ l := by
  unfold insertNode at h
  split at h
  · exact Or.inr h
  · rcases List.mem_append.mp h with h1 | h1
    · exact Or.inr h1
    · simp at h1
      exact Or.inl h1

lemma add_node_nodes (g : Graph) (j : Nat) (d : Sticky) :
    (g.add_node j d).nodes = insertNode j g.nodes := rfl

lemma add_node_edges (g : Graph) (j : Nat) (d : Sticky) :
    (g.add_node j d).edges = g.edges := rfl

lemma add_edge_nodes (g : Graph) (a b : Nat) (k : String) :
    (g.add_edge a b k).nodes = insertNode b (insertNode a g.nodes) := by
  unfold Graph.add_edge
  split <;> rfl

lemma add_edge_dataMap (g : Graph) (a b : Nat) (k : String) :
    (g.add_edge a b k).dataMap = g.dataMap := by
  unfold Graph.add_edge
  split <;> rfl

lemma touches_kind_update (e : Edge) (a b x y : Nat) (k : String) :
    Edge.touches (if e.touches a b then { e with kind := k } else e) x y = e.touches x y := by
  split <;> rfl

lemma add_edge_hasEdge_mono {g : Graph} {x y : Nat} (a b : Nat) (k : String)
    (h : g.hasEdge x y = true) : (g.add_edge a b k).hasEdge x y = true := by
  unfold Graph.hasEdge at h ⊢
  obtain ⟨e, he, hte⟩ := List.any_eq_true.mp h
  unfold Graph.add_edge
  split
  · exact List.any_eq_true.mpr
      ⟨if e.touches a b then { e with kind := k } else e,
        List.mem_map_of_mem _ he, by rw [touches_kind_update]; exact hte⟩
  · exact List.any_eq_true.mpr ⟨e, List.mem_append_left _ he, hte⟩

lemma add_edge_hasEdge_self (g : Graph) (a b : Nat) (k : String) :
    (g.add_edge a b k).hasEdge a b = true := by
  unfold Graph.add_edge
  split
  · rename_i h
    unfold Graph.hasEdge at h ⊢
    obtain ⟨e, he, hte⟩ := List.any_eq_true.mp h
    exact List.any_eq_true.mpr
      ⟨if e.touches a b then { e with kind := k } else e,
        List.mem_map_of_mem _ he, by rw [touches_kind_update]; exact hte⟩
  · unfold Graph.hasEdge
    apply List.any_eq_true.mpr
    refine ⟨Edge.mk a b k, List.mem_append_right _ (by simp), ?_⟩
    simp [Edge.touches]

lemma edgeInc_kind_update (i : Nat) (e : Edge) (a b : Nat) (k : String) :
    edgeInc i (if e.touches a b then { e with kind := k } else e) = edgeInc i e := by
  split <;> rfl

lemma add_edge_degree_mono (g : Graph) (i a b : Nat) (k : String) :
    g.degree i ≤ (g.add_edge a b k).degree i := by
  unfold Graph.add_edge
  split
  · apply le_of_eq
    unfold Graph.degree
    rw [List.map_map]
    congr 1
    apply List.map_congr_left
    intro e _
    exact (edgeInc_kind_update i e a b k).symm
  · unfold Graph.degree
    rw [List.map_append, List.sum_append]
    simp

/-! ## Helper lemmas: list minimum -/

lemma foldl_min_le (t : List Nat) :
    ∀ a : Nat, t.foldl min a ≤ a ∧ ∀ x ∈ t, t.foldl min a ≤ x := by
  induction t with
  | nil =>
    intro a
    exact ⟨le_refl a, by intro x hx; cases hx⟩
  | cons b t ih =>
    intro a
    constructor
    · exact le_trans (ih (min a b)).1 (min_le_left a b)
    · intro x hx
      rcases List.mem_cons.mp hx with rfl | hx'
      · exact le_trans (ih (min a x)).1 (min_le_right a x)
      · exact (ih (min a b)).2 x hx'

lemma min?_le_of_mem {l : List Nat} {m x : Nat} (hm : l.min? = some m) (hx : x ∈ l) :
    m ≤ x := by
  cases l with
  | nil => cases hx
  | cons a t =>
    have hm' : t.foldl min a = m := by
      simpa [List.min?] using hm
    rcases List.mem_cons.mp hx with rfl | hx'
    · rw [← hm']
      exact (foldl_min_le t x).1
    · rw [← hm']
      exact (foldl_min_le t a).2 x hx'

lemma min_note_degree_le {g : Graph} {labelIds : List Nat} {m : Nat}
    (hm : min_note_degree g labelIds = some m) {i : Nat} (hi : i ∈ g.nodes)
    (hni : i ∉ labelIds) : m ≤ g.degree i := by
  apply min?_le_of_mem hm
  apply List.mem_map_of_mem
  exact List.mem_filter.mpr ⟨hi, decide_eq_true hni⟩

/-! ## Helper lemmas: the Phase 2 loop -/

lemma phase2_go_hasEdge_mono (labelIds : List Nat) :
    ∀ (l : List (Int × Nat × Nat)) (g : Graph) {x y : Nat},
      g.hasEdge x y = true → (phase2_go labelIds l g).hasEdge x y = true := by
  intro l
  induction l with
  | nil =>
    intro g x y h
    exact h
  | cons hd tl ih =>
    intro g x y h
    obtain ⟨d, a, b⟩ := hd
    simp only [phase2_go]
    split
    · exact add_edge_hasEdge_mono a b _ h
    · exact ih _ (add_edge_hasEdge_mono a b _ h)

lemma phase2_go_cases (labelIds noteIds : List Nat)
    (hdisj : ∀ n ∈ noteIds, n ∉ labelIds) :
    ∀ (l : List (Int × Nat × Nat)) (g : Graph),
      (∀ n ∈ noteIds, n ∈ g.nodes) →
      (∀ n ∈ noteIds, 2 ≤ (phase2_go labelIds l g).degree n) ∨
        (∀ p ∈ l, (phase2_go labelIds l g).hasEdge p.2.1 p.2.2 = true) := by
  intro l
  induction l with
  | nil =>
    intro g _
    right
    intro p hp
    cases hp
  | cons hd tl ih =>
    intro g hg
    obtain ⟨d, a, b⟩ := hd
    simp only [phase2_go]
    split
    · rename_i hstop
      left
      intro n hn
      refine min_note_degree_le hstop ?_ (hdisj n hn)
      rw [add_edge_nodes]
      exact insertNode_mem (insertNode_mem (hg n hn))
    · have hg2 : ∀ n ∈ noteIds, n ∈ (g.add_edge a b "proximity").nodes := by
        intro n hn
        rw [add_edge_nodes]
        exact insertNode_mem (insertNode_mem (hg n hn))
      rcases ih (g.add_edge a b "proximity") hg2 with hL | hR
      · left
        exact hL
      · right
        intro p hp
        rcases List.mem_cons.mp hp with rfl | hp'
        · exact phase2_go_hasEdge_mono labelIds tl _ (add_edge_hasEdge_self g a b "proximity")
        · exact hR p hp'

/-! ## Helper lemmas: ids and the pre-loop graph -/

lemma note_id_not_label_id (stickies : List Sticky)
    (hnd : (stickies.map (fun s => s.id)).Nodup) :
    ∀ n ∈ (notes_only stickies).map (fun s => s.id), n ∉ label_ids stickies := by
  intro n hn hlab
  obtain ⟨s, hs, rfl⟩ := List.mem_map.mp hn
  obtain ⟨t, ht, hts⟩ := List.mem_map.mp hlab
  have hs' : s ∈ stickies := (List.filter_sublist stickies).mem hs
  have ht' : t ∈ stickies := (List.filter_sublist stickies).mem ht
  have hteq : t = s := List.inj_on_of_nodup_map hnd ht' hs' hts
  subst hteq
  have h1 := (List.mem_filter.mp hs).2
  have h2 := (List.mem_filter.mp ht).2
  simp at h1 h2
  exact h1 h2

lemma foldl_add_node_nodes_mono :
    ∀ (ns : List Sticky) (g : Graph) {i : Nat}, i ∈ g.nodes →
      i ∈ (ns.foldl (fun g s => g.add_node s.id s) g).nodes := by
  intro ns
  induction ns with
  | nil =>
    intro g i h
    exact h
  | cons s t ih =>
    intro g i h
    exact ih _ (insertNode_mem h)

lemma foldl_add_node_self :
    ∀ (ns : List Sticky) (g : Graph) (s : Sticky), s ∈ ns →
      s.id ∈ (ns.foldl (fun g s => g.add_node s.id s) g).nodes := by
  intro ns
  induction ns with
  | nil =>
    intro g s h
    cases h
  | cons a t ih =>
    intro g s h
    rcases List.mem_cons.mp h with rfl | h'
    · exact foldl_add_node_nodes_mono t _ (insertNode_self _ _)
    · exact ih _ s h'

lemma notes_in_graph_with_notes (stickies : List Sticky) :
    ∀ s ∈ notes_only stickies, s.id ∈ (graph_with_notes stickies).nodes :=
  fun s hs => foldl_add_node_self _ _ s hs

/-- C1: when the Phase 2 loop of `build_connection_graph` terminates, either
every note's degree (over both labeling and proximity edges) is at least 2,
or every candidate note pair from `combinations(notes, 2)` has had its edge
added (the candidate list was exhausted).  The ids are assumed pairwise
distinct, the stated invariant of the input. -/
theorem c1_phase2_stop_disjunction (stickies : List Sticky)
    (hnd : (stickies.map (fun s => s.id)).Nodup)
    (h2 : 2 ≤ (notes_only stickies).length) :
    (∀ s ∈ notes_only stickies, 2 ≤ (build_connection_graph stickies).degree s.id) ∨
      (∀ p ∈ pairs_of (notes_only stickies),
        (build_connection_graph stickies).hasEdge p.1.id p.2.id = true) := by
  have hdisj := note_id_not_label_id stickies hnd
  have hg : ∀ n ∈ (notes_only stickies).map (fun s => s.id),
      n ∈ (graph_with_notes stickies).nodes := by
    intro n hn
    obtain ⟨s, hs, rfl⟩ := List.mem_map.mp hn
    exact notes_in_graph_with_notes stickies s hs
  unfold build_connection_graph
  rcases phase2_go_cases (label_ids stickies) ((notes_only stickies).map (fun s => s.id))
      hdisj (ticket_proximity stickies) (graph_with_notes stickies) hg with hL | hR
  · left
    intro s hs
    exact hL s.id (List.mem_map_of_mem _ hs)
  · right
    intro p hp
    have hmem : (dist2 p.1 p.2, p.1.id, p.2.id) ∈ ticket_proximity stickies := by
      unfold ticket_proximity
      rw [mem_stable_sort]
      exact List.mem_map_of_mem _ hp
    exact hR _ hmem

theorem c1_witness :
    2 ≤ (build_connection_graph
        [⟨1, some "a", "3-Yellow", 0, 0⟩, ⟨2, some "b", "3-Yellow", 5, 5⟩]).degree 1 ∨
      (build_connection_graph
        [⟨1, some "a", "3-Yellow", 0, 0⟩, ⟨2, some "b", "3-Yellow", 5, 5⟩]).hasEdge 1 2 = true := by
  rcases c1_phase2_stop_disjunction
      [⟨1, some "a", "3-Yellow", 0, 0⟩, ⟨2, some "b", "3-Yellow", 5, 5⟩]
      (by decide) (by decide) with hL | hR
  · exact Or.inl (hL ⟨1, some "a", "3-Yellow", 0, 0⟩ (by decide))
  · exact Or.inr (hR (⟨1, some "a", "3-Yellow", 0, 0⟩, ⟨2, some "b", "3-Yellow", 5, 5⟩) (by decide))

/-! ## Helper lemmas: the Phase 1 loop -/

lemma touches_spec {e : Edge} {a b : Nat} (h : e.touches a b = true) :
    (e.u = a ∧ e.v = b) ∨ (e.u = b ∧ e.v = a) := by
  simpa [Edge.touches] using h

lemma hasEdge_false_of_labcnt_zero {g : Graph} {a b : Nat}
    (hall : ∀ e ∈ g.edges, e.kind = "labeling")
    (h0 : labeling_degree g a = 0) : g.hasEdge a b = false := by
  by_contra h
  rw [Bool.not_eq_false] at h
  obtain ⟨e, he, hte⟩ := List.any_eq_true.mp h
  have hta : (e.u == a || e.v == a) = true := by
    rcases touches_spec hte with ⟨h1, _⟩ | ⟨_, h2⟩
    · simp [h1]
    · simp [h2]
  have hk : (e.kind == "labeling") = true := beq_iff_eq.mpr (hall e he)
  have hmem : e ∈ g.edges.filter (fun e => (e.u == a || e.v == a) && (e.kind == "labeling")) :=
    List.mem_filter.mpr ⟨he, by rw [hta, hk]; rfl⟩
  unfold labeling_degree at h0
  rw [List.length_eq_zero] at h0
  rw [h0] at hmem
  cases hmem

lemma phase1_go_spec (labelIdsL noteIdsL : List Nat)
    (hdisj : ∀ n ∈ noteIdsL, n ∉ labelIdsL)
    (hLnd : labelIdsL.Nodup) :
    ∀ (l : List (Int × Sticky × Sticky)) (g : Graph) (connected : List Nat),
      (∀ p ∈ l, p.2.1.id ∈ labelIdsL ∧ p.2.2.id ∈ noteIdsL) →
      connected.Nodup →
      (∀ c ∈ connected, c ∈ labelIdsL) →
      (∀ e ∈ g.edges, e.kind = "labeling") →
      (∀ c ∈ connected, c ∈ g.nodes ∧ labeling_degree g c = 1) →
      (∀ i ∈ labelIdsL, i ∉ connected → labeling_degree g i = 0) →
      (∀ i ∈ labelIdsL, i ∈ connected ∨ ∃ p ∈ l, p.2.1.id = i) →
      ∀ i ∈ labelIdsL,
        i ∈ (phase1_go labelIdsL.length l g connected).nodes ∧
          labeling_degree (phase1_go labelIdsL.length l g connected) i = 1 := by
  intro l
  induction l with
  | nil =>
    intro g connected _ _ _ _ h1 _ h3 i hi
    rcases h3 i hi with hin | ⟨p, hp, _⟩
    · exact h1 i hin
    · cases hp
  | cons hd tl ih =>
    intro g connected hpairs hcnd hconn hall h1 h2 h3 i hi
    obtain ⟨d, lb, nt⟩ := hd
    simp only [phase1_go]
    by_cases hc : lb.id ∈ connected
    · rw [if_pos hc]
      refine ih g connected (fun p hp => hpairs p (List.mem_cons_of_mem _ hp))
        hcnd hconn hall h1 h2 ?_ i hi
      intro j hj
      rcases h3 j hj with hin | ⟨p, hp, hpj⟩
      · exact Or.inl hin
      · rcases List.mem_cons.mp hp with rfl | hp'
        · exact Or.inl (hpj ▸ hc)
        · exact Or.inr ⟨p, hp', hpj⟩
    · rw [if_neg hc]
      obtain ⟨hlb, hnt⟩ := hpairs (d, lb, nt) (List.mem_cons_self _ _)
      have hntlab : nt.id ∉ labelIdsL := hdisj nt.id hnt
      have h0 : labeling_degree g lb.id = 0 := h2 lb.id hlb hc
      have hke : (g.add_node lb.id lb).hasEdge lb.id nt.id = false :=
        hasEdge_false_of_labcnt_zero hall h0
      have hg2edges : ((g.add_node lb.id lb).add_edge lb.id nt.id "labeling").edges =
          g.edges ++ [Edge.mk lb.id nt.id "labeling"] := by
        unfold Graph.add_edge
        rw [if_neg (by rw [hke]; exact Bool.false_ne_true)]
        rfl
      have hall2 : ∀ e ∈ ((g.add_node lb.id lb).add_edge lb.id nt.id "labeling").edges,
          e.kind = "labeling" := by
        intro e he
        rw [hg2edges] at he
        rcases List.mem_append.mp he with he' | he'
        · exact hall e he'
        · simp at he'
          rw [he']
      have hcnt2 : ∀ j : Nat,
          labeling_degree ((g.add_node lb.id lb).add_edge lb.id nt.id "labeling") j =
            labeling_degree g j + (if (lb.id == j || nt.id == j) = true then 1 else 0) := by
        intro j
        unfold labeling_degree
        rw [hg2edges, List.filter_append, List.length_append]
        congr 1
        by_cases hcond : (lb.id == j || nt.id == j) = true
        · simp [List.filter_cons, hcond]
        · simp [List.filter_cons, hcond]
      have hnode2 : ∀ c : Nat, (c ∈ g.nodes ∨ c = lb.id) →
          c ∈ ((g.add_node lb.id lb).add_edge lb.id nt.id "labeling").nodes := by
        intro c hcc
        rw [add_edge_nodes]
        rcases hcc with hcc | rfl
        · exact insertNode_mem (insertNode_mem (insertNode_mem hcc))
        · exact insertNode_mem (insertNode_self _ _)
      have h1' : ∀ c ∈ connected ++ [lb.id],
          c ∈ ((g.add_node lb.id lb).add_edge lb.id nt.id "labeling").nodes ∧
            labeling_degree ((g.add_node lb.id lb).add_edge lb.id nt.id "labeling") c = 1 := by
        intro c hcc
        rcases List.mem_append.mp hcc with hcc' | hcc'
        · have hne1 : lb.id ≠ c := fun h => hc (h ▸ hcc')
          have hne2 : nt.id ≠ c := fun h => hntlab (h ▸ hconn c hcc')
          constructor
          · exact hnode2 c (Or.inl (h1 c hcc').1)
          · rw [hcnt2 c, if_neg (by simp [hne1, hne2]), (h1 c hcc').2]
        · simp at hcc'
          subst hcc'
          refine ⟨hnode2 _ (Or.inr rfl), ?_⟩
          rw [hcnt2 _, if_pos (by simp), h0]
      by_cases hbreak : (connected ++ [lb.id]).length = labelIdsL.length
      · rw [if_pos hbreak]
        have hnd2 : (connected ++ [lb.id]).Nodup := by
          rw [List.nodup_append]
          exact ⟨hcnd, List.nodup_singleton _, fun a ha hb => hc ((List.mem_singleton.mp hb) ▸ ha)⟩
        have hsub2 : ∀ c ∈ connected ++ [lb.id], c ∈ labelIdsL := by
          intro c hcc
          rcases List.mem_append.mp hcc with hcc' | hcc'
          · exact hconn c hcc'
          · exact (List.mem_singleton.mp hcc') ▸ hlb
        have hmem2 : i ∈ connected ++ [lb.id] := by
          have hsubF : (connected ++ [lb.id]).toFinset ⊆ labelIdsL.toFinset := by
            intro a ha
            exact List.mem_toFinset.mpr (hsub2 a (List.mem_toFinset.mp ha))
          have hcardF : labelIdsL.toFinset.card ≤ (connected ++ [lb.id]).toFinset.card := by
            rw [List.toFinset_card_of_nodup hLnd, List.toFinset_card_of_nodup hnd2, hbreak]
          have := Finset.eq_of_subset_of_card_le hsubF hcardF
          rw [← List.mem_toFinset, this, List.mem_toFinset]
          exact hi
        exact h1' i hmem2
      · rw [if_neg hbreak]
        refine ih ((g.add_node lb.id lb).add_edge lb.id nt.id "labeling") (connected ++ [lb.id])
          (fun p hp => hpairs p (List.mem_cons_of_mem _ hp)) ?_ ?_ hall2 h1' ?_ ?_ i hi
        · rw [List.nodup_append]
          exact ⟨hcnd, List.nodup_singleton _, fun a ha hb => hc ((List.mem_singleton.mp hb) ▸ ha)⟩
        · intro c hcc
          rcases List.mem_append.mp hcc with hcc' | hcc'
          · exact hconn c hcc'
          · exact (List.mem_singleton.mp hcc') ▸ hlb
        · intro j hj hjn
          have hj1 : j ∉ connected := fun h => hjn (List.mem_append_left _ h)
          have hj2 : j ≠ lb.id := fun h => hjn (List.mem_append_right _ (by simp [h]))
          have hne2 : nt.id ≠ j := fun h => hntlab (h ▸ hj)
          rw [hcnt2 j, if_neg (by simp [Ne.symm hj2, hne2]), h2 j hj hj1]
        · intro j hj
          rcases h3 j hj with hin | ⟨p, hp, hpj⟩
          · exact Or.inl (List.mem_append_left _ hin)
          · rcases List.mem_cons.mp hp with rfl | hp'
            · exact Or.inl (List.mem_append_right _ (List.mem_singleton.mpr hpj.symm))
            · exact Or.inr ⟨p, hp', hpj⟩

lemma mem_label_proximity (stickies : List Sticky) :
    ∀ p ∈ label_proximity stickies,
      p.2.1 ∈ labels_only stickies ∧ p.2.2 ∈ notes_only stickies := by
  intro p hp
  unfold label_proximity at hp
  rw [mem_stable_sort] at hp
  obtain ⟨q, hq, rfl⟩ := List.mem_map.mp hp
  obtain ⟨a, b⟩ := q
  exact ⟨(List.mem_product.mp hq).1, (List.mem_product.mp hq).2⟩

/-- C5: for any input with at least one note and pairwise distinct ids,
after Phase 1 every label is a node of the graph with exactly one incident
edge of kind `labeling` — label attachment is a total function. -/
theorem c5_label_attachment_unique (stickies : List Sticky)
    (hnd : (stickies.map (fun s => s.id)).Nodup)
    (hne : notes_only stickies ≠ []) :
    ∀ lb ∈ labels_only stickies,
      lb.id ∈ (graph_after_phase1 stickies).nodes ∧
        labeling_degree (graph_after_phase1 stickies) lb.id = 1 := by
  intro lb hlb
  have hLnd : (label_ids stickies).Nodup :=
    List.Nodup.sublist (List.Sublist.map _ (List.filter_sublist stickies)) hnd
  have hdisj : ∀ n ∈ (notes_only stickies).map (fun s => s.id), n ∉ label_ids stickies :=
    note_id_not_label_id stickies hnd
  obtain ⟨nt, hnt⟩ : ∃ nt, nt ∈ notes_only stickies := by
    cases h : notes_only stickies with
    | nil => exact absurd h hne
    | cons a t => exact ⟨a, by simp [h]⟩
  have hwit : ∀ i ∈ label_ids stickies, ∃ p ∈ label_proximity stickies, p.2.1.id = i := by
    intro i hi
    obtain ⟨t, ht, rfl⟩ := List.mem_map.mp hi
    refine ⟨(dist2 t nt, t, nt), ?_, rfl⟩
    unfold label_proximity
    rw [mem_stable_sort]
    exact List.mem_map_of_mem _ (List.mem_product.mpr ⟨ht, hnt⟩)
  have hpairs : ∀ p ∈ label_proximity stickies,
      p.2.1.id ∈ label_ids stickies ∧
        p.2.2.id ∈ (notes_only stickies).map (fun s => s.id) := by
    intro p hp
    have h := mem_label_proximity stickies p hp
    exact ⟨List.mem_map_of_mem _ h.1, List.mem_map_of_mem _ h.2⟩
  have htotal : (labels_only stickies).length = (label_ids stickies).length :=
    (List.length_map _ _).symm
  unfold graph_after_phase1
  rw [htotal]
  exact phase1_go_spec (label_ids stickies) ((notes_only stickies).map (fun s => s.id))
    hdisj hLnd (label_proximity stickies) Graph.empty [] hpairs List.nodup_nil
    (by intro c hc; cases hc) (by intro e he; cases he) (by intro c hc; cases hc)
    (by intro i hi h'; rfl) (by intro i hi; exact Or.inr (hwit i hi))
    lb.id (List.mem_map_of_mem _ hlb)

theorem c5_witness :
    (9 : Nat) ∈ (graph_after_phase1
        [⟨9, some "T", "Team-Label", 0, 0⟩, ⟨1, some "a", "3-Yellow", 1, 1⟩]).nodes ∧
      labeling_degree (graph_after_phase1
        [⟨9, some "T", "Team-Label", 0, 0⟩, ⟨1, some "a", "3-Yellow", 1, 1⟩]) 9 = 1 :=
  c5_label_attachment_unique
    [⟨9, some "T", "Team-Label", 0, 0⟩, ⟨1, some "a", "3-Yellow", 1, 1⟩]
    (by decide) (by decide) ⟨9, some "T", "Team-Label", 0, 0⟩ (by decide)

/-! ## Helper lemmas: every graph node connects to a note -/

lemma linked_add_node {g : Graph} {x y j : Nat} {d : Sticky} (h : g.linked x y) :
    (g.add_node j d).linked x y := h

lemma linked_add_edge {g : Graph} {x y : Nat} (a b : Nat) (k : String) (h : g.linked x y) :
    (g.add_edge a b k).linked x y := by
  obtain ⟨e, he, hor⟩ := h
  unfold Graph.add_edge
  split
  · refine ⟨if e.touches a b then { e with kind := k } else e, List.mem_map_of_mem _ he, ?_⟩
    split <;> exact hor
  · exact ⟨e, List.mem_append_left _ he, hor⟩

lemma linked_add_edge_self (g : Graph) (a b : Nat) (k : String) :
    (g.add_edge a b k).linked a b := by
  unfold Graph.add_edge
  split
  · rename_i h
    obtain ⟨e, he, hte⟩ := List.any_eq_true.mp h
    refine ⟨if e.touches a b then { e with kind := k } else e, List.mem_map_of_mem _ he, ?_⟩
    rcases touches_spec hte with ⟨h1, h2⟩ | ⟨h1, h2⟩ <;> split
    · exact Or.inl ⟨h1, h2⟩
    · exact Or.inl ⟨h1, h2⟩
    · exact Or.inr ⟨h1, h2⟩
    · exact Or.inr ⟨h1, h2⟩
  · exact ⟨Edge.mk a b k, List.mem_append_right _ (by simp), Or.inl ⟨rfl, rfl⟩⟩

lemma mem_neighbors_of_linked {g : Graph} {v n : Nat} (h : g.linked v n) :
    n ∈ g.neighbors v := by
  obtain ⟨e, he, hor⟩ := h
  unfold Graph.neighbors
  rw [List.mem_flatMap]
  refine ⟨e, he, ?_⟩
  rcases hor with ⟨h1, h2⟩ | ⟨h1, h2⟩
  · rw [if_pos h1, h2]
    simp
  · by_cases huv : e.u = v
    · rw [if_pos huv]
      have : n = e.v := by rw [h2, ← huv, h1]
      simp [this]
    · rw [if_neg huv, if_pos h2]
      simp [h1]

lemma subset_insert_all : ∀ (c s : List Nat) {x : Nat}, x ∈ s → x ∈ insert_all s c := by
  intro c
  induction c with
  | nil => intro s x hx; exact hx
  | cons a t ih =>
    intro s x hx
    unfold insert_all
    simp only [List.foldl_cons]
    exact ih (if a ∈ s then s else s ++ [a])
      (by by_cases h : a ∈ s
          · rw [if_pos h]; exact hx
          · rw [if_neg h]; exact List.mem_append_left _ hx)

lemma mem_insert_all : ∀ (c s : List Nat) {x : Nat}, x ∈ c → x ∈ insert_all s c := by
  intro c
  induction c with
  | nil => intro s x hx; cases hx
  | cons a t ih =>
    intro s x hx
    unfold insert_all
    simp only [List.foldl_cons]
    rcases List.mem_cons.mp hx with rfl | hx'
    · refine subset_insert_all t _ ?_
      by_cases h : x ∈ s
      · rw [if_pos h]; exact h
      · rw [if_neg h]; exact List.mem_append_right _ (by simp)
    · exact ih _ hx'

lemma subset_close_step (g : Graph) (s : List Nat) {x : Nat} (hx : x ∈ s) :
    x ∈ close_step g s :=
  subset_insert_all _ s hx

lemma neighbors_subset_close_step (g : Graph) (s : List Nat) {v n : Nat}
    (hv : v ∈ s) (hn : n ∈ g.neighbors v) : n ∈ close_step g s :=
  mem_insert_all _ s (List.mem_flatMap.mpr ⟨v, hv, hn⟩)

lemma subset_iterate_close {g : Graph} :
    ∀ (n : Nat) (s : List Nat) {x : Nat}, x ∈ s → x ∈ (close_step g)^[n] s := by
  intro n
  induction n with
  | zero => intro s x hx; exact hx
  | succ m ih =>
    intro s x hx
    rw [Function.iterate_succ_apply]
    exact ih _ (subset_close_step g s hx)

lemma mem_component_self {g : Graph} (v : Nat) : v ∈ component_of g v :=
  subset_iterate_close _ _ (by simp)

lemma neighbors_subset_component {g : Graph} {v n : Nat} (hne : g.nodes ≠ [])
    (hn : n ∈ g.neighbors v) : n ∈ component_of g v := by
  unfold component_of
  cases hL : g.nodes.length with
  | zero => exact absurd (List.length_eq_zero.mp hL) hne
  | succ m =>
    rw [Function.iterate_succ_apply]
    exact subset_iterate_close m _ (neighbors_subset_close_step g [v] (by simp) hn)

lemma connected_components_spec (g : Graph) :
    ∀ gr ∈ connected_components g, ∃ v ∈ g.nodes, gr = component_of g v := by
  have h : ∀ (l : List Nat), (∀ v ∈ l, v ∈ g.nodes) →
      ∀ (acc : List (List Nat) × List Nat),
        (∀ gr ∈ acc.1, ∃ v ∈ g.nodes, gr = component_of g v) →
        ∀ gr ∈ (l.foldl (fun acc v => if v ∈ acc.2 then acc
            else (acc.1 ++ [component_of g v], acc.2 ++ component_of g v)) acc).1,
          ∃ v ∈ g.nodes, gr = component_of g v := by
    intro l
    induction l with
    | nil => intro _ acc hacc gr hgr; exact hacc gr hgr
    | cons a t ih =>
      intro hl acc hacc gr hgr
      simp only [List.foldl_cons] at hgr
      refine ih (fun v hv => hl v (List.mem_cons_of_mem _ hv)) _ ?_ gr hgr
      by_cases hmem : a ∈ acc.2
      · rw [if_pos hmem]
        exact hacc
      · rw [if_neg hmem]
        intro gr' hgr'
        rcases List.mem_append.mp hgr' with h' | h'
        · exact hacc gr' h'
        · exact ⟨a, hl a (List.mem_cons_self _ _), List.mem_singleton.mp h'⟩
  intro gr hgr
  exact h g.nodes (fun v hv => hv) ([], []) (by intro gr' h'; cases h') gr hgr

lemma mem_pairs_of {α : Type} : ∀ {l : List α} {p : α × α},
    p ∈ pairs_of l → p.1 ∈ l ∧ p.2 ∈ l := by
  intro l
  induction l with
  | nil => intro p hp; cases hp
  | cons x rest ih =>
    intro p hp
    unfold pairs_of at hp
    rcases List.mem_append.mp hp with h | h
    · obtain ⟨y, hy, rfl⟩ := List.mem_map.mp h
      exact ⟨List.mem_cons_self _ _, List.mem_cons_of_mem _ hy⟩
    · exact ⟨List.mem_cons_of_mem _ (ih h).1, List.mem_cons_of_mem _ (ih h).2⟩

lemma phase1_go_nodes_vals (noteIds : List Nat) (total : Nat) :
    ∀ (l : List (Int × Sticky × Sticky)) (g : Graph) (connected : List Nat),
      (∀ q ∈ l, q.2.2.id ∈ noteIds) →
      (∀ v ∈ g.nodes, v ∈ noteIds ∨ ∃ n ∈ noteIds, g.linked v n) →
      ∀ v ∈ (phase1_go total l g connected).nodes,
        v ∈ noteIds ∨ ∃ n ∈ noteIds, (phase1_go total l g connected).linked v n := by
  intro l
  induction l with
  | nil => intro g connected _ hg v hv; exact hg v hv
  | cons hd tl ih =>
    intro g connected hq hg
    obtain ⟨d, lb, nt⟩ := hd
    have hnt : nt.id ∈ noteIds := hq (d, lb, nt) (List.mem_cons_self _ _)
    have hg2 : ∀ v ∈ ((g.add_node lb.id lb).add_edge lb.id nt.id "labeling").nodes,
        v ∈ noteIds ∨ ∃ n ∈ noteIds,
          ((g.add_node lb.id lb).add_edge lb.id nt.id "labeling").linked v n := by
      intro v hv
      rw [add_edge_nodes] at hv
      rcases mem_insertNode hv with rfl | hv'
      · exact Or.inl hnt
      rcases mem_insertNode hv' with rfl | hv''
      · exact Or.inr ⟨nt.id, hnt, linked_add_edge_self _ _ _ _⟩
      rcases mem_insertNode hv'' with rfl | hv3
      · exact Or.inr ⟨nt.id, hnt, linked_add_edge_self _ _ _ _⟩
      · rcases hg v hv3 with hL | ⟨n, hn, hlink⟩
        · exact Or.inl hL
        · exact Or.inr ⟨n, hn, linked_add_edge _ _ _ (linked_add_node hlink)⟩
    simp only [phase1_go]
    by_cases hc : lb.id ∈ connected
    · rw [if_pos hc]
      exact ih g connected (fun q hq' => hq q (List.mem_cons_of_mem _ hq')) hg
    · rw [if_neg hc]
      by_cases hbreak : (connected ++ [lb.id]).length = total
      · rw [if_pos hbreak]
        exact hg2
      · rw [if_neg hbreak]
        exact ih _ _ (fun q hq' => hq q (List.mem_cons_of_mem _ hq')) hg2

lemma foldl_add_node_nodes_vals (noteIds : List Nat) :
    ∀ (ns : List Sticky) (g : Graph),
      (∀ s ∈ ns, s.id ∈ noteIds) →
      (∀ v ∈ g.nodes, v ∈ noteIds ∨ ∃ n ∈ noteIds, g.linked v n) →
      ∀ v ∈ (ns.foldl (fun g s => g.add_node s.id s) g).nodes,
        v ∈ noteIds ∨ ∃ n ∈ noteIds,
          (ns.foldl (fun g s => g.add_node s.id s) g).linked v n := by
  intro ns
  induction ns with
  | nil => intro g _ hg v hv; exact hg v hv
  | cons a t ih =>
    intro g hns hg
    simp only [List.foldl_cons]
    refine ih _ (fun s hs => hns s (List.mem_cons_of_mem _ hs)) ?_
    intro v hv
    rcases mem_insertNode hv with rfl | hv'
    · exact Or.inl (hns a (List.mem_cons_self _ _))
    · rcases hg v hv' with hL | ⟨n, hn, hlink⟩
      · exact Or.inl hL
      · exact Or.inr ⟨n, hn, linked_add_node hlink⟩

lemma phase2_go_nodes_vals (noteIds labelIds : List Nat) :
    ∀ (l : List (Int × Nat × Nat)) (g : Graph),
      (∀ q ∈ l, q.2.1 ∈ noteIds ∧ q.2.2 ∈ noteIds) →
      (∀ v ∈ g.nodes, v ∈ noteIds ∨ ∃ n ∈ noteIds, g.linked v n) →
      ∀ v ∈ (phase2_go labelIds l g).nodes,
        v ∈ noteIds ∨ ∃ n ∈ noteIds, (phase2_go labelIds l g).linked v n := by
  intro l
  induction l with
  | nil => intro g _ hg v hv; exact hg v hv
  | cons hd tl ih =>
    intro g hq hg
    obtain ⟨d, a, b⟩ := hd
    have hab := hq (d, a, b) (List.mem_cons_self _ _)
    have hg2 : ∀ v ∈ (g.add_edge a b "proximity").nodes,
        v ∈ noteIds ∨ ∃ n ∈ noteIds, (g.add_edge a b "proximity").linked v n := by
      intro v hv
      rw [add_edge_nodes] at hv
      rcases mem_insertNode hv with rfl | hv'
      · exact Or.inl hab.2
      rcases mem_insertNode hv' with rfl | hv''
      · exact Or.inl hab.1
      · rcases hg v hv'' with hL | ⟨n, hn, hlink⟩
        · exact Or.inl hL
        · exact Or.inr ⟨n, hn, linked_add_edge _ _ _ hlink⟩
    simp only [phase2_go]
    split
    · exact hg2
    · exact ih _ (fun q hq' => hq q (List.mem_cons_of_mem _ hq')) hg2

lemma build_nodes_spec (stickies : List Sticky) :
    ∀ v ∈ (build_connection_graph stickies).nodes,
      v ∈ (notes_only stickies).map (fun s => s.id) ∨
        ∃ n ∈ (notes_only stickies).map (fun s => s.id),
          (build_connection_graph stickies).linked v n := by
  unfold build_connection_graph
  apply phase2_go_nodes_vals
  · intro q hq
    unfold ticket_proximity at hq
    rw [mem_stable_sort] at hq
    obtain ⟨p, hp, rfl⟩ := List.mem_map.mp hq
    have := mem_pairs_of hp
    exact ⟨List.mem_map_of_mem _ this.1, List.mem_map_of_mem _ this.2⟩
  · unfold graph_with_notes
    apply foldl_add_node_nodes_vals
    · intro s hs
      exact List.mem_map_of_mem _ hs
    · unfold graph_after_phase1
      apply phase1_go_nodes_vals
      · intro q hq
        exact List.mem_map_of_mem _ (mem_label_proximity stickies q hq).2
      · intro v hv
        cases hv

/-! ## Helper lemmas: node data -/

lemma add_node_dataMap (g : Graph) (j : Nat) (d : Sticky) :
    (g.add_node j d).dataMap =
      if g.dataMap.any (fun p => p.1 == j) then
        g.dataMap.map (fun p => if p.1 == j then (j, d) else p)
      else g.dataMap ++ [(j, d)] := rfl

lemma add_node_dataMap_key (g : Graph) (j : Nat) (d : Sticky) :
    ∃ p ∈ (g.add_node j d).dataMap, p.1 = j := by
  rw [add_node_dataMap]
  by_cases h : g.dataMap.any (fun p => p.1 == j) = true
  · rw [if_pos h]
    obtain ⟨q, hq, hqe⟩ := List.any_eq_true.mp h
    refine ⟨if q.1 == j then (j, d) else q, List.mem_map_of_mem _ hq, ?_⟩
    rw [if_pos hqe]
  · rw [if_neg h]
    exact ⟨(j, d), List.mem_append_right _ (by simp), rfl⟩

lemma add_node_dataMap_key_preserved (g : Graph) {i : Nat} (j : Nat) (d : Sticky)
    (h : ∃ p ∈ g.dataMap, p.1 = i) : ∃ p ∈ (g.add_node j d).dataMap, p.1 = i := by
  obtain ⟨p, hp, hpi⟩ := h
  rw [add_node_dataMap]
  by_cases hc : g.dataMap.any (fun p => p.1 == j) = true
  · rw [if_pos hc]
    refine ⟨if p.1 == j then (j, d) else p, List.mem_map_of_mem _ hp, ?_⟩
    by_cases hpj : (p.1 == j) = true
    · rw [if_pos hpj]
      rw [← eq_of_beq hpj]
      exact hpi
    · rw [if_neg hpj]
      exact hpi
  · rw [if_neg hc]
    exact ⟨p, List.mem_append_left _ hp, hpi⟩

lemma add_node_dataMap_vals {P : Nat × Sticky → Prop} {g : Graph} {j : Nat} {d : Sticky}
    (hg : ∀ p ∈ g.dataMap, P p) (hd : P (j, d)) :
    ∀ p ∈ (g.add_node j d).dataMap, P p := by
  intro p hp
  rw [add_node_dataMap] at hp
  by_cases hc : g.dataMap.any (fun p => p.1 == j) = true
  · rw [if_pos hc] at hp
    obtain ⟨q, hq, hqe⟩ := List.mem_map.mp hp
    by_cases hqj : (q.1 == j) = true
    · rw [if_pos hqj] at hqe
      rw [← hqe]
      exact hd
    · rw [if_neg hqj] at hqe
      rw [← hqe]
      exact hg q hq
  · rw [if_neg hc] at hp
    rcases List.mem_append.mp hp with h' | h'
    · exact hg p h'
    · rw [List.mem_singleton.mp h']
      exact hd

lemma foldl_add_node_dataMap_key_mono :
    ∀ (ns : List Sticky) (g : Graph) {i : Nat},
      (∃ p ∈ g.dataMap, p.1 = i) →
      ∃ p ∈ (ns.foldl (fun g s => g.add_node s.id s) g).dataMap, p.1 = i := by
  intro ns
  induction ns with
  | nil => intro g i h; exact h
  | cons a t ih =>
    intro g i h
    simp only [List.foldl_cons]
    exact ih _ (add_node_dataMap_key_preserved g a.id a h)

lemma foldl_add_node_dataMap_key :
    ∀ (ns : List Sticky) (g : Graph) (s : Sticky), s ∈ ns →
      ∃ p ∈ (ns.foldl (fun g s => g.add_node s.id s) g).dataMap, p.1 = s.id := by
  intro ns
  induction ns with
  | nil => intro g s h; cases h
  | cons a t ih =>
    intro g s h
    rcases List.mem_cons.mp h with rfl | h'
    · simp only [List.foldl_cons]
      exact foldl_add_node_dataMap_key_mono t _ (add_node_dataMap_key g s.id s)
    · exact ih _ s h'

lemma foldl_add_node_dataMap_vals {P : Nat × Sticky → Prop} :
    ∀ (ns : List Sticky) (g : Graph),
      (∀ p ∈ g.dataMap, P p) → (∀ s ∈ ns, P (s.id, s)) →
      ∀ p ∈ (ns.foldl (fun g s => g.add_node s.id s) g).dataMap, P p := by
  intro ns
  induction ns with
  | nil => intro g hg _ p hp; exact hg p hp
  | cons a t ih =>
    intro g hg hns
    simp only [List.foldl_cons]
    exact ih _ (add_node_dataMap_vals hg (hns a (List.mem_cons_self _ _)))
      (fun s hs => hns s (List.mem_cons_of_mem _ hs))

lemma phase2_go_dataMap (labelIds : List Nat) :
    ∀ (l : List (Int × Nat × Nat)) (g : Graph),
      (phase2_go labelIds l g).dataMap = g.dataMap := by
  intro l
  induction l with
  | nil => intro g; rfl
  | cons hd tl ih =>
    intro g
    obtain ⟨d, a, b⟩ := hd
    simp only [phase2_go]
    split
    · exact add_edge_dataMap _ _ _ _
    · rw [ih, add_edge_dataMap]

lemma phase1_go_dataMap_vals {P : Nat × Sticky → Prop} (total : Nat) :
    ∀ (l : List (Int × Sticky × Sticky)) (g : Graph) (connected : List Nat),
      (∀ p ∈ g.dataMap, P p) →
      (∀ q ∈ l, P (q.2.1.id, q.2.1)) →
      ∀ p ∈ (phase1_go total l g connected).dataMap, P p := by
  intro l
  induction l with
  | nil => intro g connected hg _ p hp; exact hg p hp
  | cons hd tl ih =>
    intro g connected hg hl
    obtain ⟨d, lb, nt⟩ := hd
    have hlb : P (lb.id, lb) := hl (d, lb, nt) (List.mem_cons_self _ _)
    have hg2 : ∀ p ∈ ((g.add_node lb.id lb).add_edge lb.id nt.id "labeling").dataMap, P p := by
      rw [add_edge_dataMap]
      exact add_node_dataMap_vals hg hlb
    simp only [phase1_go]
    by_cases hc : lb.id ∈ connected
    · rw [if_pos hc]
      exact ih g connected hg (fun q hq => hl q (List.mem_cons_of_mem _ hq))
    · rw [if_neg hc]
      by_cases hbreak : (connected ++ [lb.id]).length = total
      · rw [if_pos hbreak]
        exact hg2
      · rw [if_neg hbreak]
        exact ih _ _ hg2 (fun q hq => hl q (List.mem_cons_of_mem _ hq))

lemma note_data_key (stickies : List Sticky) (s : Sticky) (hs : s ∈ notes_only stickies) :
    ∃ p ∈ (build_connection_graph stickies).dataMap, p.1 = s.id := by
  unfold build_connection_graph
  rw [phase2_go_dataMap]
  exact foldl_add_node_dataMap_key (notes_only stickies) _ s hs

lemma build_dataMap_vals (stickies : List Sticky)
    (hnd : (stickies.map (fun s => s.id)).Nodup) :
    ∀ p ∈ (build_connection_graph stickies).dataMap,
      p.2 ∈ stickies ∧
        (p.1 ∈ (notes_only stickies).map (fun s => s.id) → p.2.color ∉ label_texts) := by
  intro p hp
  unfold build_connection_graph at hp
  rw [phase2_go_dataMap] at hp
  unfold graph_with_notes at hp
  refine foldl_add_node_dataMap_vals
    (P := fun p => p.2 ∈ stickies ∧
      (p.1 ∈ (notes_only stickies).map (fun s => s.id) → p.2.color ∉ label_texts))
    (notes_only stickies) (graph_after_phase1 stickies) ?_ ?_ p hp
  · unfold graph_after_phase1
    apply phase1_go_dataMap_vals
    · intro q hq
      cases hq
    · intro q hq
      have hlab := (mem_label_proximity stickies q hq).1
      refine ⟨(List.filter_sublist stickies).mem hlab, fun hmem => ?_⟩
      exact absurd (List.mem_map_of_mem (fun s => s.id) hlab)
        (fun h => note_id_not_label_id stickies hnd q.2.1.id hmem h)
  · intro s hs
    refine ⟨(List.filter_sublist stickies).mem hs, fun _ => ?_⟩
    have := (List.mem_filter.mp hs).2
    simpa using this

lemma lookup_data_success {g : Graph} {i : Nat} (h : ∃ p ∈ g.dataMap, p.1 = i) :
    ∃ d, lookup_data g i = some d ∧ (i, d) ∈ g.dataMap := by
  obtain ⟨p0, hp0, hp0i⟩ := h
  cases hf : g.dataMap.find? (fun p => p.1 == i) with
  | none =>
    exfalso
    exact (List.find?_eq_none.mp hf p0 hp0) (by simp [hp0i])
  | some q =>
    refine ⟨q.2, ?_, ?_⟩
    · unfold lookup_data
      rw [hf]
      rfl
    · have hq1 : q.1 = i := eq_of_beq (@List.find?_some _ (fun p => p.1 == i) q _ hf)
      have hqm := List.mem_of_find?_eq_some hf
      exact (show (i, q.2) = q by rw [← hq1]) ▸ hqm

/-! ## Groups contain notes -/

lemma groups_contain_note (stickies : List Sticky) :
    ∀ group ∈ connected_components (build_connection_graph stickies),
      ∃ n ∈ group, n ∈ (notes_only stickies).map (fun s => s.id) := by
  intro group hgr
  obtain ⟨v, hv, rfl⟩ := connected_components_spec _ group hgr
  rcases build_nodes_spec stickies v hv with hL | ⟨n, hn, hlink⟩
  · exact ⟨v, mem_component_self v, hL⟩
  · exact ⟨n, neighbors_subset_component (List.ne_nil_of_mem hv)
      (mem_neighbors_of_linked hlink), hn⟩

lemma groups_population_pos (stickies : List Sticky)
    (hnd : (stickies.map (fun s => s.id)).Nodup)
    (hcol : ∀ s ∈ stickies, has_label_sub s.color = true → s.color ∈ label_texts) :
    ∀ group ∈ connected_components (build_connection_graph stickies),
      0 < population_of (group_data (build_connection_graph stickies) group) := by
  intro group hgr
  obtain ⟨n, hng, hnid⟩ := groups_contain_note stickies group hgr
  obtain ⟨s, hs, rfl⟩ := List.mem_map.mp hnid
  obtain ⟨d, hld, hdm⟩ := lookup_data_success (note_data_key stickies s hs)
  obtain ⟨hdst, himp⟩ := build_dataMap_vals stickies hnd (s.id, d) hdm
  have hcolor : d.color ∉ label_texts := himp (List.mem_map_of_mem _ hs)
  have hnotlab : has_label_sub d.color = false := by
    cases h : has_label_sub d.color
    · rfl
    · exact absurd (hcol d hdst h) hcolor
  have hdg : d ∈ group_data (build_connection_graph stickies) group :=
    List.mem_filterMap.mpr ⟨s.id, hng, by rw [hld]⟩
  have hdf : d ∈ filter_labels (group_data (build_connection_graph stickies) group) :=
    List.mem_filter.mpr ⟨hdg, by rw [hnotlab]; rfl⟩
  exact List.length_pos_of_mem hdf

/-- C10: with pairwise-distinct ids and colors whose only `Label`-containing
values are the two genuine label names, every connected component of the
built graph contains at least one plain note (labels only ever enter the
graph together with an edge to a note), so after filtering out label items
every group's population is at least 1 — the score division is never by
zero. -/
theorem c10_components_contain_note (stickies : List Sticky)
    (hnd : (stickies.map (fun s => s.id)).Nodup)
    (hcol : ∀ s ∈ stickies, has_label_sub s.color = true → s.color ∈ label_texts) :
    ∀ group ∈ connected_components (build_connection_graph stickies),
      1 ≤ population_of (group_data (build_connection_graph stickies) group) :=
  groups_population_pos stickies hnd hcol

theorem c10_witness :
    1 ≤ population_of (group_data
      (build_connection_graph
        [⟨5, some "Alpha", "Team-Label", 0, 0⟩, ⟨4, some "g", "1-DarkGreen", 1, 1⟩])
      [5, 4]) :=
  c10_components_contain_note
    [⟨5, some "Alpha", "Team-Label", 0, 0⟩, ⟨4, some "g", "1-DarkGreen", 1, 1⟩]
    (by decide) (by decide) [5, 4] (by decide)

lemma analyze_group_ok_of_pop {sticky_group : List Sticky}
    (h : 0 < (filter_labels sticky_group).length) :
    analysis_ok (analyze_group sticky_group) = true := by
  simp only [analyze_group]
  rw [if_neg (Nat.pos_iff_ne_zero.mp h)]
  rfl

/-- C2 (amended): the score computation carries no guard and no "no score"
marker, but for every group the pipeline can actually produce (a connected
component of the built graph, under the id-uniqueness and color hypotheses)
the label-filtered population is nonzero, so the unguarded division never
raises and every group yields a record. -/
theorem c2_amended_division_unreachable (stickies : List Sticky)
    (hnd : (stickies.map (fun s => s.id)).Nodup)
    (hcol : ∀ s ∈ stickies, has_label_sub s.color = true → s.color ∈ label_texts) :
    ∀ group ∈ connected_components (build_connection_graph stickies),
      analysis_ok (analyze_group
        (group_data (build_connection_graph stickies) group)) = true := by
  intro group hgr
  exact analyze_group_ok_of_pop (groups_population_pos stickies hnd hcol group hgr)

theorem c2_amended_witness :
    analysis_ok (analyze_group (group_data
      (build_connection_graph
        [⟨5, some "Alpha", "Team-Label", 0, 0⟩, ⟨4, some "g", "1-DarkGreen", 1, 1⟩])
      [5, 4])) = true :=
  c2_amended_division_unreachable
    [⟨5, some "Alpha", "Team-Label", 0, 0⟩, ⟨4, some "g", "1-DarkGreen", 1, 1⟩]
    (by decide) (by decide) [5, 4] (by decide)
